import Mathlib

/-!
Verification development for the CanvasErgonomicPdfViewer render-session
controller (src/CanvasErgonomicPdfViewer/pdfjs-worker.d.ts).

The TypeScript class is shallowly embedded:
  * JS number arithmetic is modelled exactly over the rationals.
  * Pure helpers (clampNumber, computeFitWidthScale, dataUriToBytes,
    getCurrentPageIndex, updateNavUi, the loadFromDataUri prologue) become
    Lean functions translated line by line from the source.
  * The asynchronous controller methods (loadFromDataUri, renderAllPages,
    applyScale, onResize, setScale) become a small-step machine: a task is
    suspended at each await point, and a scheduler event resumes one
    atomic segment (the code between two awaits) at a time, exactly as in
    the single-threaded event loop.
-/

set_option maxRecDepth 8000

namespace PdfCanvasViewer

/-- Intrinsic page geometry as reported by the rendering capability
(PageHandle.getViewport at a given scale returns width and height). -/
structure PageGeom where
  width : ℚ
  height : ℚ
deriving Repr, DecidableEq

/-- PDFPageProxy.getViewport of the source: dimensions scale linearly. -/
def getViewport (p : PageGeom) (scale : ℚ) : PageGeom :=
  ⟨p.width * scale, p.height * scale⟩

/-- clampNumber of the source: Math.max(min, Math.min(max, v)); the
non-finite branch of the source cannot arise over the rationals. -/
def clampNumber (v lo hi : ℚ) : ℚ :=
  max lo (min hi v)

/-- computeFitWidthScale of the source, as a function of the loaded page
list, the live viewport clientWidth, and the configured zoom bounds. -/
def computeFitWidthScale (pages : List PageGeom) (clientWidth minZoom maxZoom : ℚ) : ℚ :=
  match pages with
  | [] => 1
  | first :: _ =>
    let usable := max 200 (clientWidth - 24)
    let vp1 := getViewport first 1
    clampNumber (usable / max 1 vp1.width) minZoom maxZoom

theorem clampNumber_comm (x lo hi : ℚ) (h : lo ≤ hi) :
    clampNumber x lo hi = min hi (max lo x) := by
  unfold clampNumber
  rcases le_total x lo with h1 | h1 <;> rcases le_total x hi with h2 | h2 <;>
    simp [min_def, max_def] <;> split_ifs <;> linarith

theorem clampNumber_mem (x lo hi : ℚ) (h : lo ≤ hi) :
    lo ≤ clampNumber x lo hi ∧ clampNumber x lo hi ≤ hi := by
  unfold clampNumber
  constructor
  · exact le_max_left _ _
  · exact max_le h (min_le_left _ _)

theorem clampNumber_idem (x lo hi : ℚ) (h : lo ≤ hi) :
    clampNumber (clampNumber x lo hi) lo hi = clampNumber x lo hi := by
  unfold clampNumber
  rcases le_total x lo with h1 | h1 <;> rcases le_total x hi with h2 | h2 <;>
    simp [min_def, max_def] <;> split_ifs <;> linarith

/-- Claim C2: with at least one page loaded the fit scale equals
clamp(max(200, W - 24) / max(1, P), minZoom, maxZoom) where W is the
viewport width and P the first page's intrinsic width; with no pages it
is 1; and at W = 1000, P = 800 the unclamped value is 976/800 = 61/50. -/
theorem fit_width_scale_formula (W P minZoom maxZoom : ℚ) (h : minZoom ≤ maxZoom) :
    computeFitWidthScale [] W minZoom maxZoom = 1 ∧
    (∀ (hgt : ℚ) (rest : List PageGeom),
      computeFitWidthScale (⟨P, hgt⟩ :: rest) W minZoom maxZoom
        = min maxZoom (max minZoom (max 200 (W - 24) / max 1 P))) ∧
    max 200 ((1000 : ℚ) - 24) / max 1 (800 : ℚ) = 61 / 50 := by
  refine ⟨rfl, ?_, by norm_num⟩
  intro hgt rest
  show clampNumber (max 200 (W - 24) / max 1 (P * 1)) minZoom maxZoom = _
  rw [mul_one, clampNumber_comm _ _ _ h]

/-- Concrete instance of fit_width_scale_formula: viewport 1000, first
page width 800, bounds 1/2 and 3 give fit scale 61/50 = 1.22. -/
theorem fit_width_scale_formula_w :
    computeFitWidthScale [⟨800, 1000⟩] 1000 (1 / 2) 3 = 61 / 50 := by
  have h := fit_width_scale_formula 1000 800 (1 / 2) 3 (by norm_num)
  calc computeFitWidthScale [⟨800, 1000⟩] 1000 (1 / 2) 3
      = min 3 (max (1 / 2) (max 200 ((1000 : ℚ) - 24) / max 1 (800 : ℚ))) := h.2.1 1000 []
    _ = 61 / 50 := by norm_num

/-- The character class of the source regex [\r\n\s]: JS whitespace
(ASCII whitespace, NBSP, the Unicode space separators, LS, PS, BOM),
which is also the set removed by String.prototype.trim. -/
def isJsSpace (c : Char) : Bool :=
  c = Char.ofNat 0x09 || c = Char.ofNat 0x0a || c = Char.ofNat 0x0b ||
  c = Char.ofNat 0x0c || c = Char.ofNat 0x0d || c = ' ' ||
  c = Char.ofNat 0xa0 || c = Char.ofNat 0x1680 ||
  (0x2000 ≤ c.toNat && c.toNat ≤ 0x200a) ||
  c = Char.ofNat 0x2028 || c = Char.ofNat 0x2029 || c = Char.ofNat 0x202f ||
  c = Char.ofNat 0x205f || c = Char.ofNat 0x3000 || c = Char.ofNat 0xfeff

/-- String.prototype.trim: drop JS whitespace from both ends. -/
def trimChars (l : List Char) : List Char :=
  ((l.dropWhile isJsSpace).reverse.dropWhile isJsSpace).reverse

/-- The suffix after the first comma; substring(indexOf(st) + 1) of the
source, applied only under a guard that the list contains a comma. -/
def dropThroughComma : List Char → List Char
  | [] => []
  | c :: rest => if c = ',' then rest else dropThroughComma rest

/-- The five characters of the literal the source tests with startsWith. -/
def dataHeadTag : List Char := ['d', 'a', 't', 'a', ':']

/-- The usual PDF data-URI head, up to and including the first comma. -/
def dataPdfHead : List Char :=
  ['d', 'a', 't', 'a', ':', 'a', 'p', 'p', 'l', 'i', 'c', 'a', 't', 'i', 'o', 'n',
   '/', 'p', 'd', 'f', ';', 'b', 'a', 's', 'e', '6', '4', ',']

/-- List analogue of String.prototype.startsWith (first argument is the
sought head). -/
def listStartsWith : List Char → List Char → Bool
  | [], _ => true
  | _ :: _, [] => false
  | p :: ps, c :: cs => p = c && listStartsWith ps cs

/-- The prefix-stripping step of dataUriToBytes: when the trimmed input
starts with the data: tag and contains a comma, keep only the part after
the first comma. -/
def stripDataHead (l : List Char) : List Char :=
  if listStartsWith dataHeadTag l && l.contains ',' then dropThroughComma l else l

/-- The base64 alphabet, indexed 0 to 63. -/
def b64Chars : List Char :=
  ['A','B','C','D','E','F','G','H','I','J','K','L','M','N','O','P',
   'Q','R','S','T','U','V','W','X','Y','Z',
   'a','b','c','d','e','f','g','h','i','j','k','l','m','n','o','p',
   'q','r','s','t','u','v','w','x','y','z',
   '0','1','2','3','4','5','6','7','8','9','+','/']

/-- Alphabet character of a sextet value. -/
def b64Char (n : ℕ) : Char := b64Chars.getD n 'A'

/-- Position of a character in the base64 alphabet, if any. -/
def b64IndexGo (c : Char) : List Char → ℕ → Option ℕ
  | [], _ => none
  | d :: rest, i => if d = c then some i else b64IndexGo c rest (i + 1)

/-- Sextet value of an alphabet character; none for anything else. -/
def b64Index (c : Char) : Option ℕ := b64IndexGo c b64Chars 0

/-- Sextet values of a character list; none if any character is outside
the alphabet (the failure window.atob reports as InvalidCharacterError). -/
def b64Vals : List Char → Option (List ℕ)
  | [] => some []
  | c :: rest =>
    match b64Index c, b64Vals rest with
    | some v, some vs => some (v :: vs)
    | _, _ => none

/-- Reassemble bytes from sextets: full groups of four give three bytes,
a trailing group of two gives one byte and of three gives two bytes
(leftover low bits discarded); a lone trailing sextet is an error. -/
def decodeSextets : List ℕ → Option (List ℕ)
  | [] => some []
  | [_] => none
  | [a, b] => some [a * 4 + b / 16]
  | [a, b, c] => some [a * 4 + b / 16, b % 16 * 16 + c / 4]
  | a :: b :: c :: d :: rest =>
    (decodeSextets rest).map
      (fun r => (a * 4 + b / 16) :: (b % 16 * 16 + c / 4) :: (c % 4 * 64 + d) :: r)

/-- Remove the trailing padding ("=" or "==") from a base64 payload. -/
def dropTrailingEq (l : List Char) : List Char :=
  match l.reverse with
  | c1 :: c2 :: rest =>
    if c1 = '=' then (if c2 = '=' then rest.reverse else (c2 :: rest).reverse) else l
  | c1 :: rest => if c1 = '=' then rest.reverse else l
  | [] => l

/-- The sextet-to-bytes phase of window.atob, after padding handling. -/
def atobBody (l2 : List Char) : Option (List ℕ) :=
  if l2.length % 4 = 1 then none
  else
    match b64Vals l2 with
    | none => none
    | some vs => decodeSextets vs

/-- window.atob (forgiving base64 decode): strip padding when the length
is a multiple of four, reject length 1 mod 4, then map characters to
sextets and reassemble bytes. -/
def atob (l : List Char) : Option (List ℕ) :=
  atobBody (if l.length % 4 = 0 then dropTrailingEq l else l)

/-- dataUriToBytes of the source: trim, strip any data:-URI head up to
the first comma, remove whitespace from the payload, and atob-decode;
none models the InvalidCharacterError thrown for malformed payloads. -/
def dataUriToBytes (input : List Char) : Option (List ℕ) :=
  atob ((stripDataHead (trimChars input)).filter (fun c => !isJsSpace c))

/-- The standard base64 encoding of a byte list (the inverse the spec's
round-trip property refers to; the repository itself ships no encoder). -/
def encodeBase64 : List ℕ → List Char
  | [] => []
  | [b0] => [b64Char (b0 / 4), b64Char (b0 % 4 * 16), '=', '=']
  | [b0, b1] => [b64Char (b0 / 4), b64Char (b0 % 4 * 16 + b1 / 16), b64Char (b1 % 16 * 4), '=']
  | b0 :: b1 :: b2 :: rest =>
    b64Char (b0 / 4) :: b64Char (b0 % 4 * 16 + b1 / 16) ::
    b64Char (b1 % 16 * 4 + b2 / 64) :: b64Char (b2 % 64) :: encodeBase64 rest

/-- The sextet stream of a byte list (the alphabet positions that
encodeBase64 emits before padding). -/
def sextets : List ℕ → List ℕ
  | [] => []
  | [b0] => [b0 / 4, b0 % 4 * 16]
  | [b0, b1] => [b0 / 4, b0 % 4 * 16 + b1 / 16, b1 % 16 * 4]
  | b0 :: b1 :: b2 :: rest =>
    b0 / 4 :: (b0 % 4 * 16 + b1 / 16) :: (b1 % 16 * 4 + b2 / 64) :: b2 % 64 :: sextets rest

/-- The padding of the base64 encoding of a byte list. -/
def padOf : List ℕ → List Char
  | [] => []
  | [_] => ['=', '=']
  | [_, _] => ['=']
  | _ :: _ :: _ :: rest => padOf rest

/-- One newline after every payload character: a representative
soft-wrapped form of an encoded payload. -/
def softWrap : List Char → List Char
  | [] => []
  | c :: rest => c :: Char.ofNat 0x0a :: softWrap rest

/-- Recursor for the three-bytes-at-a-time structure shared by
encodeBase64, sextets and padOf. -/
def threeStepRec {P : List ℕ → Prop} (h0 : P []) (h1 : ∀ a, P [a]) (h2 : ∀ a b, P [a, b])
    (h3 : ∀ a b c rest, P rest → P (a :: b :: c :: rest)) : ∀ l, P l
  | [] => h0
  | [a] => h1 a
  | [a, b] => h2 a b
  | a :: b :: c :: rest => h3 a b c rest (threeStepRec h0 h1 h2 h3 rest)

theorem b64Index_b64Char : ∀ n, n < 64 → b64Index (b64Char n) = some n := by decide

theorem b64Char_bounded_facts :
    ∀ n, n < 64 → b64Char n ≠ '=' ∧ isJsSpace (b64Char n) = false ∧ b64Char n ≠ ',' := by
  decide

theorem b64Char_default (n : ℕ) (h : 64 ≤ n) : b64Char n = 'A' :=
  List.getD_eq_default _ _ (by simpa [b64Chars] using h)

theorem b64Char_facts (n : ℕ) :
    b64Char n ≠ '=' ∧ isJsSpace (b64Char n) = false ∧ b64Char n ≠ ',' := by
  by_cases h : n < 64
  · exact b64Char_bounded_facts n h
  · rw [b64Char_default n (le_of_not_lt h)]; decide

theorem encodeBase64_shape (bs : List ℕ) :
    encodeBase64 bs = (sextets bs).map b64Char ++ padOf bs := by
  induction bs using threeStepRec with
  | h0 => rfl
  | h1 a => rfl
  | h2 a b => rfl
  | h3 a b c rest ih =>
    simp only [encodeBase64, sextets, padOf, List.map_cons, List.cons_append]
    rw [ih]

theorem sextets_lt (bs : List ℕ) (hb : ∀ b ∈ bs, b < 256) :
    ∀ x ∈ sextets bs, x < 64 := by
  induction bs using threeStepRec with
  | h0 => simp [sextets]
  | h1 a =>
    have ha := hb a (by simp)
    simp only [sextets, List.mem_cons, List.not_mem_nil, or_false]
    rintro x (rfl | rfl) <;> omega
  | h2 a b =>
    have ha := hb a (by simp)
    have hbb := hb b (by simp)
    simp only [sextets, List.mem_cons, List.not_mem_nil, or_false]
    rintro x (rfl | rfl | rfl) <;> omega
  | h3 a b c rest ih =>
    have ha := hb a (by simp)
    have hbb := hb b (by simp)
    have hc := hb c (by simp)
    have ih2 := ih (fun x hx => hb x (by simp [hx]))
    simp only [sextets, List.mem_cons]
    rintro x (rfl | rfl | rfl | rfl | hx)
    · omega
    · omega
    · omega
    · omega
    · exact ih2 x hx

theorem decodeSextets_sextets (bs : List ℕ) (hb : ∀ b ∈ bs, b < 256) :
    decodeSextets (sextets bs) = some bs := by
  induction bs using threeStepRec with
  | h0 => rfl
  | h1 a =>
    have ha := hb a (by simp)
    simp only [sextets, decodeSextets, Option.some.injEq]
    congr 1
    omega
  | h2 a b =>
    have ha := hb a (by simp)
    have hbb := hb b (by simp)
    simp only [sextets, decodeSextets, Option.some.injEq]
    have e1 : a / 4 * 4 + (a % 4 * 16 + b / 16) / 16 = a := by omega
    have e2 : (a % 4 * 16 + b / 16) % 16 * 16 + b % 16 * 4 / 4 = b := by omega
    rw [e1, e2]
  | h3 a b c rest ih =>
    have ha := hb a (by simp)
    have hbb := hb b (by simp)
    have hc := hb c (by simp)
    have ih2 := ih (fun x hx => hb x (by simp [hx]))
    have hshape : sextets (a :: b :: c :: rest)
        = a / 4 :: (a % 4 * 16 + b / 16) :: (b % 16 * 4 + c / 64) :: c % 64 :: sextets rest := rfl
    rw [hshape]
    have hdec : decodeSextets (a / 4 :: (a % 4 * 16 + b / 16) :: (b % 16 * 4 + c / 64)
        :: c % 64 :: sextets rest)
        = (decodeSextets (sextets rest)).map
          (fun r => (a / 4 * 4 + (a % 4 * 16 + b / 16) / 16) ::
            ((a % 4 * 16 + b / 16) % 16 * 16 + (b % 16 * 4 + c / 64) / 4) ::
            ((b % 16 * 4 + c / 64) % 4 * 64 + c % 64) :: r) := rfl
    rw [hdec, ih2]
    simp only [Option.map_some', Option.some.injEq]
    have e1 : a / 4 * 4 + (a % 4 * 16 + b / 16) / 16 = a := by omega
    have e2 : (a % 4 * 16 + b / 16) % 16 * 16 + (b % 16 * 4 + c / 64) / 4 = b := by omega
    have e3 : (b % 16 * 4 + c / 64) % 4 * 64 + c % 64 = c := by omega
    rw [e1, e2, e3]

theorem sextets_padOf_len (bs : List ℕ) :
    (sextets bs).length % 4 ≠ 1 ∧ ((sextets bs).length + (padOf bs).length) % 4 = 0 := by
  induction bs using threeStepRec with
  | h0 => simp [sextets, padOf]
  | h1 a => simp [sextets, padOf]
  | h2 a b => simp [sextets, padOf]
  | h3 a b c rest ih =>
    have hs : (sextets (a :: b :: c :: rest)).length = 4 + (sextets rest).length := by
      simp [sextets]; omega
    have hp : padOf (a :: b :: c :: rest) = padOf rest := rfl
    rw [hs, hp]
    omega

theorem padOf_cases (bs : List ℕ) :
    padOf bs = [] ∨ padOf bs = ['='] ∨ padOf bs = ['=', '='] := by
  induction bs using threeStepRec with
  | h0 => left; rfl
  | h1 a => right; right; rfl
  | h2 a b => right; left; rfl
  | h3 a b c rest ih => exact ih

theorem dropTrailingEq_no_eq (m : List Char) (h : ∀ c ∈ m, c ≠ '=') :
    dropTrailingEq m = m := by
  unfold dropTrailingEq
  cases hm : m.reverse with
  | nil => rfl
  | cons c1 rest =>
    have hc1 : c1 ≠ '=' := h c1 (List.mem_reverse.mp (by rw [hm]; simp))
    cases rest with
    | nil => simp [hc1]
    | cons c2 rest2 => simp [hc1]

theorem dropTrailingEq_one (m : List Char) (h : ∀ c ∈ m, c ≠ '=') :
    dropTrailingEq (m ++ ['=']) = m := by
  unfold dropTrailingEq
  rw [List.reverse_append, show (['='] : List Char).reverse = ['='] from rfl,
    List.singleton_append]
  cases hm : m.reverse with
  | nil =>
    have hm2 : m = [] := by
      have := congrArg List.reverse hm
      simpa using this
    simp [hm2]
  | cons c rest =>
    have hc : c ≠ '=' := h c (List.mem_reverse.mp (by rw [hm]; simp))
    have hm2 : (c :: rest).reverse = m := by rw [← hm, List.reverse_reverse]
    simp [hc, hm2]

theorem dropTrailingEq_two (m : List Char) :
    dropTrailingEq (m ++ ['=', '=']) = m := by
  unfold dropTrailingEq
  rw [List.reverse_append, show (['=', '='] : List Char).reverse = ['=', '='] from rfl]
  simp

theorem b64Vals_map (s : List ℕ) (hs : ∀ x ∈ s, x < 64) :
    b64Vals (s.map b64Char) = some s := by
  induction s with
  | nil => rfl
  | cons x rest ih =>
    have hx := b64Index_b64Char x (hs x (by simp))
    have ih2 := ih (fun y hy => hs y (by simp [hy]))
    simp only [List.map_cons, b64Vals, hx, ih2]

theorem atob_encodeBase64 (bs : List ℕ) (hb : ∀ b ∈ bs, b < 256) :
    atob (encodeBase64 bs) = some bs := by
  rw [encodeBase64_shape]
  have hlt := sextets_lt bs hb
  have hlen := sextets_padOf_len bs
  have hmapne : ∀ c ∈ (sextets bs).map b64Char, c ≠ '=' := by
    intro c hc
    obtain ⟨n, _, rfl⟩ := List.mem_map.mp hc
    exact (b64Char_facts n).1
  have hdrop : dropTrailingEq ((sextets bs).map b64Char ++ padOf bs) = (sextets bs).map b64Char := by
    rcases padOf_cases bs with hp | hp | hp <;> rw [hp]
    · rw [List.append_nil]; exact dropTrailingEq_no_eq _ hmapne
    · exact dropTrailingEq_one _ hmapne
    · exact dropTrailingEq_two _
  have hlen0 : ((sextets bs).map b64Char ++ padOf bs).length % 4 = 0 := by
    rw [List.length_append, List.length_map]
    exact hlen.2
  have hlen1 : ¬ ((sextets bs).map b64Char).length % 4 = 1 := by
    rw [List.length_map]; exact hlen.1
  unfold atob
  rw [if_pos hlen0, hdrop]
  unfold atobBody
  rw [if_neg hlen1, b64Vals_map _ hlt]
  exact decodeSextets_sextets bs hb

theorem encodeBase64_char_facts (bs : List ℕ) :
    ∀ c ∈ encodeBase64 bs, isJsSpace c = false ∧ c ≠ ',' := by
  intro c hc
  rw [encodeBase64_shape] at hc
  rcases List.mem_append.mp hc with hc | hc
  · obtain ⟨n, _, rfl⟩ := List.mem_map.mp hc
    exact ⟨(b64Char_facts n).2.1, (b64Char_facts n).2.2⟩
  · rcases padOf_cases bs with hp | hp | hp <;> rw [hp] at hc <;> simp at hc <;>
      subst hc <;> exact ⟨by decide, by decide⟩

theorem dropWhile_all_not (p : Char → Bool) (l : List Char) (h : ∀ c ∈ l, p c = false) :
    l.dropWhile p = l := by
  cases l with
  | nil => rfl
  | cons c rest => simp [List.dropWhile, h c (by simp)]

theorem trimChars_of_nospace (l : List Char) (h : ∀ c ∈ l, isJsSpace c = false) :
    trimChars l = l := by
  unfold trimChars
  rw [dropWhile_all_not _ _ h, dropWhile_all_not _ _ (fun c hc => h c (List.mem_reverse.mp hc)),
    List.reverse_reverse]

theorem filter_dropWhile_not (p : Char → Bool) (l : List Char) :
    (l.dropWhile p).filter (fun c => !p c) = l.filter (fun c => !p c) := by
  induction l with
  | nil => rfl
  | cons c rest ih =>
    by_cases hc : p c = true
    · simp [List.dropWhile, List.filter, hc, ih]
    · simp only [Bool.not_eq_true] at hc
      simp [List.dropWhile, List.filter, hc]

theorem filter_trimChars (l : List Char) :
    (trimChars l).filter (fun c => !isJsSpace c) = l.filter (fun c => !isJsSpace c) := by
  unfold trimChars
  rw [List.filter_reverse, filter_dropWhile_not, List.filter_reverse, List.reverse_reverse,
    filter_dropWhile_not]

theorem mem_trimChars (c : Char) (l : List Char) (h : c ∈ trimChars l) : c ∈ l := by
  unfold trimChars at h
  rw [List.mem_reverse] at h
  have h2 := (List.dropWhile_sublist _).mem h
  rw [List.mem_reverse] at h2
  exact (List.dropWhile_sublist _).mem h2

theorem stripDataHead_no_comma (l : List Char) (h : ',' ∉ l) : stripDataHead l = l := by
  unfold stripDataHead
  have hc : l.contains ',' = false := by
    cases hcon : l.contains ',' with
    | false => rfl
    | true => exact absurd (List.mem_of_elem_eq_true hcon) h
  rw [hc, Bool.and_false]
  rfl

theorem dropThroughComma_head (r : List Char) : dropThroughComma (dataPdfHead ++ r) = r := by
  simp [dataPdfHead, dropThroughComma]

theorem stripDataHead_pdf (r : List Char) : stripDataHead (dataPdfHead ++ r) = r := by
  unfold stripDataHead
  have h1 : listStartsWith dataHeadTag (dataPdfHead ++ r) = true := by
    simp [dataHeadTag, dataPdfHead, listStartsWith]
  have h2 : (dataPdfHead ++ r).contains ',' = true :=
    List.elem_eq_true_of_mem (by simp [dataPdfHead])
  rw [h1, h2]
  simp [dropThroughComma_head]

theorem mem_softWrap (c : Char) (l : List Char) (h : c ∈ softWrap l) :
    c ∈ l ∨ c = Char.ofNat 0x0a := by
  induction l with
  | nil => simp [softWrap] at h
  | cons d rest ih =>
    simp only [softWrap, List.mem_cons] at h
    rcases h with rfl | rfl | h
    · exact Or.inl (by simp)
    · exact Or.inr rfl
    · rcases ih h with h2 | h2
      · exact Or.inl (by simp [h2])
      · exact Or.inr h2

theorem filter_softWrap (l : List Char) (h : ∀ c ∈ l, isJsSpace c = false) :
    (softWrap l).filter (fun c => !isJsSpace c) = l := by
  induction l with
  | nil => rfl
  | cons c rest ih =>
    have hc := h c (by simp)
    have ih2 := ih (fun d hd => h d (by simp [hd]))
    simp only [softWrap, List.filter, hc]
    simpa [show isJsSpace (Char.ofNat 0x0a) = true from rfl] using ih2

/-- Claim C8: decoding the base64 encoding of a byte sequence with
dataUriToBytes yields exactly the original bytes, for the bare encoded
form, for the data:-URI form whose head up to the first comma is
stripped, and for a payload with a newline after every character. -/
theorem base64_roundtrip (bs : List ℕ) (hne : bs ≠ []) (hb : ∀ b ∈ bs, b < 256) :
    dataUriToBytes (encodeBase64 bs) = some bs ∧
    dataUriToBytes (dataPdfHead ++ encodeBase64 bs) = some bs ∧
    dataUriToBytes (softWrap (encodeBase64 bs)) = some bs := by
  have hchar := encodeBase64_char_facts bs
  have hnospace : ∀ c ∈ encodeBase64 bs, isJsSpace c = false := fun c hc => (hchar c hc).1
  have hnocomma : ',' ∉ encodeBase64 bs := fun hc => (hchar ',' hc).2 rfl
  refine ⟨?_, ?_, ?_⟩
  · unfold dataUriToBytes
    rw [trimChars_of_nospace _ hnospace, stripDataHead_no_comma _ hnocomma,
      List.filter_eq_self.mpr (by intro c hc; simp [hnospace c hc]),
      atob_encodeBase64 bs hb]
  · unfold dataUriToBytes
    have hall : ∀ c ∈ dataPdfHead ++ encodeBase64 bs, isJsSpace c = false := by
      intro c hc
      rcases List.mem_append.mp hc with hc | hc
      · exact (show ∀ x ∈ dataPdfHead, isJsSpace x = false by decide) c hc
      · exact hnospace c hc
    rw [trimChars_of_nospace _ hall, stripDataHead_pdf,
      List.filter_eq_self.mpr (by intro c hc; simp [hnospace c hc]),
      atob_encodeBase64 bs hb]
  · unfold dataUriToBytes
    have hnocomma2 : ',' ∉ trimChars (softWrap (encodeBase64 bs)) := by
      intro hc
      rcases mem_softWrap _ _ (mem_trimChars _ _ hc) with hc2 | hc2
      · exact hnocomma hc2
      · exact absurd hc2 (by decide)
    rw [stripDataHead_no_comma _ hnocomma2, filter_trimChars, filter_softWrap _ hnospace,
      atob_encodeBase64 bs hb]

/-- Witness for base64_roundtrip at the bytes of the string %PDF. -/
theorem base64_roundtrip_w :
    dataUriToBytes (encodeBase64 [37, 80, 68, 70]) = some [37, 80, 68, 70] ∧
    dataUriToBytes (dataPdfHead ++ encodeBase64 [37, 80, 68, 70]) = some [37, 80, 68, 70] ∧
    dataUriToBytes (softWrap (encodeBase64 [37, 80, 68, 70])) = some [37, 80, 68, 70] :=
  base64_roundtrip [37, 80, 68, 70] (by decide) (by decide)

/-- The visible error banner set by setError, by content. -/
inductive Banner
  /-- The banner for the message starting Not a PDF. Signature: with the
  observed four-character signature. -/
  | notAPdf (sig : String)
  /-- The banner for the message starting Failed to load PDF: with the
  underlying exception message. -/
  | loadFailed
deriving Repr, DecidableEq

/-- Outcome of the synchronous part of loadFromDataUri, before any use
of the rendering capability. -/
inductive LoadOutcome
  /-- Trimmed identifier empty or shorter than 20 characters. -/
  | tooShort
  /-- dataUriToBytes threw (malformed base64 payload). -/
  | decodeFailed
  /-- Signature check failed; carries the observed signature. -/
  | sigError (sig : String)
  /-- All synchronous gates passed; the load continues asynchronously. -/
  | proceed (bytes : List ℕ)
deriving Repr, DecidableEq

/-- The four-character signature the source builds with
String.fromCharCode(bytes[0] ?? 0, ..., bytes[3] ?? 0): missing
positions read as 0. -/
def sigOf (bytes : List ℕ) : String :=
  String.mk [Char.ofNat (bytes.getD 0 0), Char.ofNat (bytes.getD 1 0),
    Char.ofNat (bytes.getD 2 0), Char.ofNat (bytes.getD 3 0)]

/-- The synchronous prologue of loadFromDataUri: trim, the length-20
gate, decoding, and the signature gate, in source order. -/
def loadPrologue (dataUri : List Char) : LoadOutcome :=
  let raw := trimChars dataUri
  if raw.isEmpty || raw.length < 20 then .tooShort
  else
    match dataUriToBytes raw with
    | none => .decodeFailed
    | some bytes =>
      if sigOf bytes ≠ "%PDF" then .sigError (sigOf bytes) else .proceed bytes

/-- The banner each prologue outcome leaves visible: tooShort returns
before setError, bad signatures call setError with the Not a PDF
message, the catch block calls setError with the Failed to load PDF
message, and the proceed path has cleared any previous banner. -/
def bannerOf : LoadOutcome → Option Banner
  | .tooShort => none
  | .decodeFailed => some .loadFailed
  | .sigError sig => some (.notAPdf sig)
  | .proceed _ => none

/-- The mutable fields of the controller that the modelled operations
touch. Pages and wrappers are identified by (document id, page number);
pageWrappers and the pagesHost children always coincide in the modelled
operations and are kept as the single field wrappers. The toolbar label
texts are projections of these fields (see updateNavUi below) and are
not duplicated here. -/
structure Ctrl where
  renderToken : ℕ
  doc : Option ℕ
  pages : List (ℕ × ℕ)
  wrappers : List (ℕ × ℕ)
  currentScale : ℚ
  fitWidthScale : ℚ
  minZoom : ℚ
  maxZoom : ℚ
  scrollTop : ℚ
  scrollLeft : ℚ
  errorShown : Bool
  loading : Bool
deriving Repr, DecidableEq

/-- The external collaborators: the rendering capability (document id of
a byte buffer, page count and page geometry per document) and the live
DOM layout reads (clientWidth, clientHeight, scrollWidth, scrollHeight
of the viewport element). -/
structure Env where
  docOf : List ℕ → ℕ
  numPages : ℕ → ℕ
  pageGeom : ℕ → ℕ → PageGeom
  clientWidth : ℚ
  clientHeight : ℚ
  scrollHeight : ℚ
  scrollWidth : ℚ

/-- Which caller a renderAllPages pass belongs to: the neutral-scale
pass of a load, the fit-scale pass of a load, or an applyScale pass
(carrying the scroll ratios captured before the re-render). -/
inductive Cont
  | load1
  | load2
  | applyScaleCont (ratioTop ratioLeft : ℚ)
deriving Repr, DecidableEq

/-- Suspension points of the asynchronous operations: awaiting the
document promise, awaiting getPage(i), awaiting one page rasterization
inside a renderAllPages loop (snap is the array the for-of loop iterates,
read at loop entry; k the finished index), awaiting the double
requestAnimationFrame of a load, or the pending scroll-restore
requestAnimationFrame callback of applyScale. -/
inductive PC
  | awaitDoc (id : ℕ)
  | awaitPage (id : ℕ) (i : ℕ)
  | awaitRender (cont : Cont) (snap : List (ℕ × ℕ)) (k : ℕ)
  | awaitRaf
  | rafRestore (ratioTop ratioLeft : ℚ)
deriving Repr, DecidableEq

/-- An in-flight asynchronous chain: the generation token it captured at
its start and the suspension point it is parked at. -/
structure AsyncTask where
  token : ℕ
  pc : PC
deriving Repr, DecidableEq

/-- clearDocument of the source, on the modelled fields. -/
def clearDocumentCtrl (s : Ctrl) : Ctrl :=
  { s with doc := none, pages := [], wrappers := [] }

/-- computeFitWidthScale as the controller runs it: first page geometry
from the capability, clientWidth from the live layout. -/
def computeFitCtrl (env : Env) (s : Ctrl) : ℚ :=
  computeFitWidthScale (s.pages.map (fun p => env.pageGeom p.1 p.2))
    env.clientWidth s.minZoom s.maxZoom

/-- The scroll-ratio capture of applyScale: scrollPos over the scrollable
extent, 0 when the content does not overflow. -/
def scrollFracOf (pos total client : ℚ) : ℚ :=
  if total > client then pos / (total - client) else 0

/-- The scroll-restore computation of the applyScale animation-frame
callback: Math.floor(maxExtent * ratio). -/
def restoreScrollPos (total client ratio : ℚ) : ℤ :=
  Int.floor (max 0 (total - client) * ratio)

/-- Code that runs when a renderAllPages loop has finished or returned
early, continuing in the caller right after its await renderAllPages. -/
def renderAllDone (s : Ctrl) (token : ℕ) (cont : Cont) : Ctrl × Option AsyncTask :=
  match cont with
  | .load1 =>
    if token ≠ s.renderToken then (s, none)
    else (s, some ⟨token, .awaitRaf⟩)
  | .load2 =>
    if token ≠ s.renderToken then (s, none)
    else ({ s with loading := false }, none)
  | .applyScaleCont rT rL =>
    if token ≠ s.renderToken then (s, none)
    else ({ s with loading := false }, some ⟨token, .rafRestore rT rL⟩)

/-- One iteration boundary of the renderAllPages for-of loop, continuing
at index k of the snapshot: loop exit, or the token check followed by
wrapper and canvas creation and the rasterization await. -/
def renderStep (s : Ctrl) (token : ℕ) (cont : Cont) (snap : List (ℕ × ℕ)) (k : ℕ) :
    Ctrl × Option AsyncTask :=
  if k < snap.length then
    if token ≠ s.renderToken then (s, none)
    else
      ({ s with wrappers := s.wrappers ++ [snap.getD k (0, 0)] },
        some ⟨token, .awaitRender cont snap k⟩)
  else renderAllDone s token cont

/-- Entry of renderAllPages: clear the host and the wrapper and canvas
arrays, then run the loop over the pages array as read at loop entry. -/
def renderAllPagesStart (s : Ctrl) (token : ℕ) (cont : Cont) : Ctrl × Option AsyncTask :=
  renderStep { s with wrappers := [] } token cont s.pages 0

/-- The getPage loop of loadFromDataUri at counter value i: loop exit
into the neutral-scale render pass, or the token check followed by the
getPage await. -/
def loadPageStep (env : Env) (s : Ctrl) (token id i : ℕ) : Ctrl × Option AsyncTask :=
  if i > env.numPages id then
    renderAllPagesStart { s with currentScale := 1 } token .load1
  else if token ≠ s.renderToken then (s, none)
  else (s, some ⟨token, .awaitPage id i⟩)

/-- Resume one suspended task for one atomic segment (the code between
two awaits), exactly as the event loop would. -/
def resumeTask (env : Env) (s : Ctrl) (t : AsyncTask) : Ctrl × Option AsyncTask :=
  match t.pc with
  | .awaitDoc id =>
    if t.token ≠ s.renderToken then (s, none)
    else
      loadPageStep env { s with doc := some id, pages := [], wrappers := [] } t.token id 1
  | .awaitPage id i =>
    loadPageStep env { s with pages := s.pages ++ [(id, i)] } t.token id (i + 1)
  | .awaitRender cont snap k =>
    renderStep s t.token cont snap (k + 1)
  | .awaitRaf =>
    let fit := computeFitCtrl env s
    renderAllPagesStart
      { s with fitWidthScale := fit, currentScale := fit, scrollTop := 0, scrollLeft := 0 }
      t.token .load2
  | .rafRestore rT rL =>
    ({ s with
        scrollTop := (restoreScrollPos env.scrollHeight env.clientHeight rT : ℚ),
        scrollLeft := (restoreScrollPos env.scrollWidth env.clientWidth rL : ℚ) }, none)

/-- The synchronous part of loadFromDataUri (called from updateView when
the identifier changes): allocate a new token, clear the banner, and run
the prologue; only the proceed outcome starts asynchronous work and
consults the rendering capability. -/
def startLoad (env : Env) (s : Ctrl) (input : List Char) : Ctrl × Option AsyncTask :=
  let token := s.renderToken + 1
  let s1 := { s with renderToken := token, errorShown := false }
  match loadPrologue input with
  | .tooShort => (clearDocumentCtrl s1, none)
  | .decodeFailed => ({ clearDocumentCtrl s1 with errorShown := true, loading := false }, none)
  | .sigError _ => ({ clearDocumentCtrl s1 with errorShown := true, loading := false }, none)
  | .proceed bytes => ({ s1 with loading := true }, some ⟨token, .awaitDoc (env.docOf bytes)⟩)

/-- The synchronous part of applyScale: the doc and pages guard, token
allocation, scroll-ratio capture, and the entry of the first render pass
up to its first await. -/
def applyScaleStart (env : Env) (s : Ctrl) : Ctrl × Option AsyncTask :=
  if s.doc = none ∨ s.pages = [] then (s, none)
  else
    let token := s.renderToken + 1
    let rT := scrollFracOf s.scrollTop env.scrollHeight env.clientHeight
    let rL := scrollFracOf s.scrollLeft env.scrollWidth env.clientWidth
    renderAllPagesStart { s with renderToken := token, loading := true } token
      (.applyScaleCont rT rL)

/-- setScale of the source: clamp into the configured bounds, then
re-render through applyScale (whose scale parameter the source ignores;
rendering reads currentScale). -/
def setScaleEv (env : Env) (s : Ctrl) (scale : ℚ) : Ctrl × Option AsyncTask :=
  applyScaleStart env { s with currentScale := clampNumber scale s.minZoom s.maxZoom }

/-- onResize of the source: nothing without pages; otherwise recompute
the fit scale and re-snap to it when the current scale is within the
0.02 tolerance of the previous fit scale. -/
def onResizeEv (env : Env) (s : Ctrl) : Ctrl × Option AsyncTask :=
  if s.pages.isEmpty then (s, none)
  else
    let beforeFit := s.fitWidthScale
    let s2 := { s with fitWidthScale := computeFitCtrl env s }
    if |s2.currentScale - beforeFit| ≤ 1 / 50 then setScaleEv env s2 s2.fitWidthScale
    else (s2, none)

/-- The zoom-bound configuration step of updateView: minZoom clamped
into [0.1, 5], then maxZoom clamped into [minZoom, 10]. -/
def setConfigEv (s : Ctrl) (minZRaw maxZRaw : ℚ) : Ctrl :=
  let s1 := { s with minZoom := clampNumber minZRaw (1 / 10) 5 }
  { s1 with maxZoom := clampNumber maxZRaw s1.minZoom 10 }

/-- Scheduler events: a host-driven load or configuration or scale or
resize step (synchronous), or the resolution of whatever promise task j
is parked on (resuming one atomic segment). -/
inductive Ev
  | startL (input : List Char)
  | config (minZ maxZ : ℚ)
  | setScaleE (scale : ℚ)
  | resize
  | resume (j : ℕ)

/-- A controller state together with the in-flight asynchronous chains
(none marks a chain that has run to completion). -/
structure SchedState where
  ctrl : Ctrl
  tasks : List (Option AsyncTask)
deriving Repr, DecidableEq

/-- One scheduler event. -/
def stepEv (env : Env) (c : SchedState) : Ev → SchedState
  | .startL input =>
    let r := startLoad env c.ctrl input
    ⟨r.1, c.tasks ++ [r.2]⟩
  | .config a b => ⟨setConfigEv c.ctrl a b, c.tasks⟩
  | .setScaleE sc =>
    let r := setScaleEv env c.ctrl sc
    ⟨r.1, c.tasks ++ [r.2]⟩
  | .resize =>
    let r := onResizeEv env c.ctrl
    ⟨r.1, c.tasks ++ [r.2]⟩
  | .resume j =>
    match c.tasks.getD j none with
    | none => c
    | some t =>
      let r := resumeTask env c.ctrl t
      ⟨r.1, c.tasks.set j r.2⟩

/-- Run a schedule of events. -/
def run (env : Env) (c : SchedState) (evs : List Ev) : SchedState :=
  evs.foldl (stepEv env) c

/-- The controller state right after init: token 0, no document, scale
1, default bounds 0.5 and 3, no banner, not loading. -/
def initCtrl : Ctrl :=
  ⟨0, none, [], [], 1, 1, 1 / 2, 3, 0, 0, false, false⟩

/-- Initial scheduler state: no in-flight work. -/
def initSched : SchedState := ⟨initCtrl, []⟩

/-- A demonstration environment: identifier A decodes to the 4-byte
document %PDF with 2 pages (document id 1), identifier B to a 6-byte
document with 1 page (document id 2); every page is 800 wide. -/
def envDemo : Env where
  docOf := fun bytes => if bytes.length ≤ 4 then 1 else 2
  numPages := fun id => if id = 1 then 2 else 1
  pageGeom := fun _ _ => ⟨800, 1000⟩
  clientWidth := 824
  clientHeight := 600
  scrollHeight := 900
  scrollWidth := 800

/-- A valid data URI (base64 of %PDF), document A. -/
def uriA : List Char := "data:application/pdf;base64,JVBERg==".toList

/-- A valid data URI (base64 of a 6-byte %PDF file), document B. -/
def uriB : List Char := "data:application/pdf;base64,JVBERi1C".toList

/-- A schedule where load A starts, fetches its first page, and is
awaiting its second page when load B starts and fully completes its
document and page fetches and both render passes; A's pending getPage
resolves while B is awaiting its own getPage. -/
def evsMix : List Ev :=
  [.startL uriA, .resume 0, .resume 0, .startL uriB, .resume 1, .resume 0,
   .resume 1, .resume 1, .resume 1, .resume 1, .resume 1, .resume 1]

/-- Claim C1 counterexample: loads A then B are started in succession
and every asynchronous chain runs to completion, yet the final page
list and page surfaces mix A's page 2 with B's page 1: the token is
checked before the getPage await and the fetched page pushed after it,
so A's resumed fetch lands in B's fresh pages array. -/
theorem two_load_mix_counterexample :
    (run envDemo initSched evsMix).ctrl.doc = some 2 ∧
    (1, 2) ∈ (run envDemo initSched evsMix).ctrl.wrappers ∧
    (2, 1) ∈ (run envDemo initSched evsMix).ctrl.wrappers ∧
    (run envDemo initSched evsMix).tasks = [none, none] := by decide

/-- Claim C1 (amended): every suspension that resumes directly at a
generation-token check (the document promise, and each rasterization
completion inside renderAllPages for any caller) returns silently with
no state change when the captured token is stale; a resumption from a
page fetch performs exactly the one push that precedes its next check. -/
theorem stale_token_checks_silent (env : Env) (s : Ctrl) (tok : ℕ)
    (h : tok ≠ s.renderToken) :
    (∀ id, resumeTask env s ⟨tok, .awaitDoc id⟩ = (s, none)) ∧
    (∀ cont snap k, resumeTask env s ⟨tok, .awaitRender cont snap k⟩ = (s, none)) ∧
    (∀ id i, i + 1 ≤ env.numPages id →
      resumeTask env s ⟨tok, .awaitPage id i⟩ = ({ s with pages := s.pages ++ [(id, i)] }, none)) := by
  refine ⟨?_, ?_, ?_⟩
  · intro id
    simp [resumeTask, h]
  · intro cont snap k
    by_cases hk : k + 1 < snap.length
    · simp [resumeTask, renderStep, hk, h]
    · cases cont <;> simp [resumeTask, renderStep, renderAllDone, hk, h]
  · intro id i hi
    have hgt : ¬ (i + 1 > env.numPages id) := by omega
    simp [resumeTask, loadPageStep, hgt, h]

/-- Witness for stale_token_checks_silent: a task with token 5 resumed
against the fresh controller (token 0) at the document await. -/
theorem stale_token_checks_silent_w :
    5 ≠ initCtrl.renderToken ∧
    resumeTask envDemo initCtrl ⟨5, .awaitDoc 1⟩ = (initCtrl, none) :=
  ⟨by decide, (stale_token_checks_silent envDemo initCtrl 5 (by decide)).1 1⟩

/-- A schedule that configures minZoom 2 and maxZoom 3, then runs a load
up to the neutral-scale render pass of loadFromDataUri. -/
def evsScale : List Ev := [.config 2 3, .startL uriA, .resume 0, .resume 0, .resume 0]

/-- Claim C3 counterexample: with host-configured bounds minZoom 2 and
maxZoom 3, the load sets currentScale to the neutral value 1 for its
first render pass, so minZoom of 2 exceeds currentScale of 1 at a
reachable mid-operation state. -/
theorem mid_load_scale_below_min_counterexample :
    ¬ ((run envDemo initSched evsScale).ctrl.minZoom
        ≤ (run envDemo initSched evsScale).ctrl.currentScale) := by
  have h1 : (run envDemo initSched evsScale).ctrl.currentScale = 1 := rfl
  have h2 : (run envDemo initSched evsScale).ctrl.minZoom = clampNumber 2 (1 / 10) 5 := rfl
  rw [h1, h2]
  unfold clampNumber
  rw [min_def, max_def]
  norm_num

theorem applyScaleStart_fields (env : Env) (s : Ctrl) :
    (applyScaleStart env s).1.currentScale = s.currentScale ∧
    (applyScaleStart env s).1.fitWidthScale = s.fitWidthScale ∧
    (applyScaleStart env s).1.minZoom = s.minZoom ∧
    (applyScaleStart env s).1.maxZoom = s.maxZoom := by
  unfold applyScaleStart renderAllPagesStart renderStep renderAllDone
  split_ifs <;> simp_all <;> split <;> simp_all

theorem computeFitCtrl_eq_clamp (env : Env) (s : Ctrl) (hp : s.pages ≠ []) :
    ∃ x, computeFitCtrl env s = clampNumber x s.minZoom s.maxZoom := by
  cases hps : s.pages with
  | nil => exact absurd hps hp
  | cons p rest =>
    refine ⟨max 200 (env.clientWidth - 24) / max 1 ((getViewport (env.pageGeom p.1 p.2) 1).width), ?_⟩
    simp [computeFitCtrl, hps, computeFitWidthScale]

/-- Claim C3 (amended): setScale clamps, so after any setScale the
current scale lies within the configured bounds; the fit scale computed
for a nonempty page list also lies within the bounds; and onResize with
pages loaded always recomputes fitWidthScale from the live geometry.
The invariant does not hold at every reachable point (see the
counterexample): the neutral-scale pass of a load sets currentScale to
1 regardless of the bounds. -/
theorem zoom_bounds_amended (env : Env) (s : Ctrl) (sc : ℚ)
    (h : s.minZoom ≤ s.maxZoom) (hp : s.pages ≠ []) :
    s.minZoom ≤ (setScaleEv env s sc).1.currentScale ∧
    (setScaleEv env s sc).1.currentScale ≤ s.maxZoom ∧
    s.minZoom ≤ computeFitCtrl env s ∧ computeFitCtrl env s ≤ s.maxZoom ∧
    (onResizeEv env s).1.fitWidthScale = computeFitCtrl env s := by
  have hset : (setScaleEv env s sc).1.currentScale = clampNumber sc s.minZoom s.maxZoom := by
    unfold setScaleEv
    exact (applyScaleStart_fields env _).1
  have hfit := computeFitCtrl_eq_clamp env s hp
  obtain ⟨x, hx⟩ := hfit
  refine ⟨?_, ?_, ?_, ?_, ?_⟩
  · rw [hset]; exact (clampNumber_mem sc _ _ h).1
  · rw [hset]; exact (clampNumber_mem sc _ _ h).2
  · rw [hx]; exact (clampNumber_mem x _ _ h).1
  · rw [hx]; exact (clampNumber_mem x _ _ h).2
  · unfold onResizeEv
    have hne : s.pages.isEmpty = false := by
      cases hps : s.pages with
      | nil => exact absurd hps hp
      | cons p rest => rfl
    rw [hne]
    simp only [Bool.false_eq_true, if_false]
    split_ifs with htol
    · unfold setScaleEv
      exact (applyScaleStart_fields env _).2.1
    · rfl

/-- Witness for zoom_bounds_amended at a one-page state with the default
bounds and a requested scale of 10. -/
theorem zoom_bounds_amended_w :
    ({ initCtrl with doc := some 1, pages := [(1, 1)] } : Ctrl).minZoom
      ≤ (setScaleEv envDemo { initCtrl with doc := some 1, pages := [(1, 1)] } 10).1.currentScale ∧
    (setScaleEv envDemo { initCtrl with doc := some 1, pages := [(1, 1)] } 10).1.currentScale
      ≤ ({ initCtrl with doc := some 1, pages := [(1, 1)] } : Ctrl).maxZoom :=
  ⟨(zoom_bounds_amended envDemo _ 10 (by norm_num [initCtrl]) (by decide)).1,
   (zoom_bounds_amended envDemo _ 10 (by norm_num [initCtrl]) (by decide)).2.1⟩

/-- Claim C7: on a resize with pages loaded, if the current scale is
within the 0.02 tolerance of the previous fit scale the controller
re-snaps the current scale to the freshly recomputed fit scale, and
otherwise leaves it unchanged. -/
theorem resize_fit_resnap (env : Env) (s : Ctrl)
    (h : s.minZoom ≤ s.maxZoom) (hp : s.pages ≠ []) :
    (|s.currentScale - s.fitWidthScale| ≤ 1 / 50 →
      (onResizeEv env s).1.currentScale = computeFitCtrl env s) ∧
    (¬ (|s.currentScale - s.fitWidthScale| ≤ 1 / 50) →
      (onResizeEv env s).1.currentScale = s.currentScale) := by
  have hne : s.pages.isEmpty = false := by
    cases hps : s.pages with
    | nil => exact absurd hps hp
    | cons p rest => rfl
  obtain ⟨x, hx⟩ := computeFitCtrl_eq_clamp env s hp
  constructor
  · intro htol
    unfold onResizeEv
    rw [hne]
    simp only [Bool.false_eq_true, if_false]
    rw [if_pos (by simpa using htol)]
    unfold setScaleEv
    rw [(applyScaleStart_fields env _).1]
    show clampNumber (computeFitCtrl env s) s.minZoom s.maxZoom = computeFitCtrl env s
    rw [hx, clampNumber_idem x _ _ h]
  · intro htol
    unfold onResizeEv
    rw [hne]
    simp only [Bool.false_eq_true, if_false]
    rw [if_neg (by simpa using htol)]

/-- The resize demonstration environment: pages 1000 wide, viewport
clientWidth 824, so the recomputed fit scale is 800/1000 = 0.8. -/
def env7 : Env where
  docOf := fun _ => 1
  numPages := fun _ => 1
  pageGeom := fun _ _ => ⟨1000, 1300⟩
  clientWidth := 824
  clientHeight := 600
  scrollHeight := 900
  scrollWidth := 800

/-- A one-page state at scale 1 with previous fit scale 1. -/
def s7a : Ctrl := { initCtrl with doc := some 1, pages := [(1, 1)] }

/-- The same state with the scale manually set to 2. -/
def s7b : Ctrl := { s7a with currentScale := 2 }

/-- Witness for resize_fit_resnap: at currentScale 1 and previous fit 1,
a resize that recomputes fit 0.8 re-snaps currentScale to 0.8; at
currentScale 2 the same resize leaves currentScale at 2. -/
theorem resize_fit_resnap_w :
    (onResizeEv env7 s7a).1.currentScale = 4 / 5 ∧
    (onResizeEv env7 s7b).1.currentScale = 2 := by
  have hfit : computeFitCtrl env7 s7a = 4 / 5 := by
    simp only [computeFitCtrl, env7, s7a, initCtrl, computeFitWidthScale, getViewport,
      clampNumber, List.map_cons, List.map_nil]
    rw [min_def, max_def, max_def]
    norm_num
  constructor
  · have h := (resize_fit_resnap env7 s7a (by norm_num [s7a, initCtrl]) (by decide)).1
      (by norm_num [s7a, initCtrl])
    exact h.trans hfit
  · have h := (resize_fit_resnap env7 s7b (by norm_num [s7b, s7a, initCtrl]) (by decide)).2
      (by norm_num [s7b, s7a, initCtrl])
    exact h

/-- Claim C6: applyScale captures scroll ratios with a zero default when
the content does not overflow, the animation-frame callback restores
floor(maxExtent * ratio), and the restored scroll ratio differs from the
captured one by less than 1 over the scrollable extent, hence by less
than any epsilon once the extent reaches 1/epsilon. -/
theorem scroll_anchor_preservation :
    (∀ pos total client : ℚ, total ≤ client → scrollFracOf pos total client = 0) ∧
    (∀ pos total client : ℚ, client < total →
      scrollFracOf pos total client = pos / (total - client)) ∧
    (∀ (env : Env) (s : Ctrl) (rT rL : ℚ) (tok : ℕ),
      resumeTask env s ⟨tok, .rafRestore rT rL⟩
        = ({ s with
              scrollTop := (restoreScrollPos env.scrollHeight env.clientHeight rT : ℚ),
              scrollLeft := (restoreScrollPos env.scrollWidth env.clientWidth rL : ℚ) }, none)) ∧
    (∀ total client r : ℚ, 0 < max 0 (total - client) →
      |(restoreScrollPos total client r : ℚ) / max 0 (total - client) - r|
        < 1 / max 0 (total - client)) ∧
    (∀ total client r eps : ℚ, 0 < eps → 1 / eps ≤ max 0 (total - client) →
      |(restoreScrollPos total client r : ℚ) / max 0 (total - client) - r| < eps) := by
  have floorBound : ∀ total client r : ℚ, 0 < max 0 (total - client) →
      |(restoreScrollPos total client r : ℚ) / max 0 (total - client) - r|
        < 1 / max 0 (total - client) := by
    intro total client r hm
    set m := max 0 (total - client) with hmdef
    have hne : m ≠ 0 := ne_of_gt hm
    have h1 : ((⌊m * r⌋ : ℤ) : ℚ) ≤ m * r := Int.floor_le _
    have h2 : m * r - 1 < ((⌊m * r⌋ : ℤ) : ℚ) := Int.sub_one_lt_floor _
    have key : (restoreScrollPos total client r : ℚ) = ((⌊m * r⌋ : ℤ) : ℚ) := by
      unfold restoreScrollPos
      rw [← hmdef]
    rw [key]
    have heq : ((⌊m * r⌋ : ℤ) : ℚ) / m - r = (((⌊m * r⌋ : ℤ) : ℚ) - m * r) / m := by
      rw [sub_div, mul_div_cancel_left₀ _ hne]
    rw [heq, abs_div, abs_of_pos hm]
    have habs : |((⌊m * r⌋ : ℤ) : ℚ) - m * r| < 1 :=
      abs_lt.mpr ⟨by linarith, by linarith⟩
    exact (div_lt_div_right hm).mpr habs
  refine ⟨?_, ?_, ?_, floorBound, ?_⟩
  · intro pos total client hle
    unfold scrollFracOf
    rw [if_neg (not_lt.mpr hle)]
  · intro pos total client hlt
    unfold scrollFracOf
    rw [if_pos hlt]
  · intro env s rT rL tok
    rfl
  · intro total client r eps heps hm
    have hmpos : 0 < max 0 (total - client) := lt_of_lt_of_le (by positivity) hm
    refine lt_of_lt_of_le (floorBound total client r hmpos) ?_
    rw [div_le_iff hmpos]
    have h3 : (1 / eps) * eps ≤ max 0 (total - client) * eps :=
      mul_le_mul_of_nonneg_right hm (le_of_lt heps)
    rw [one_div, inv_mul_cancel₀ (ne_of_gt heps)] at h3
    linarith [h3, mul_comm eps (max 0 (total - client))]

/-- Witness for scroll_anchor_preservation at concrete extents 300 and
100: zero ratio without overflow, the division formula with overflow,
and the floor bound at ratio 1/4. -/
theorem scroll_anchor_preservation_w :
    scrollFracOf 50 100 300 = 0 ∧
    scrollFracOf 50 300 100 = 50 / (300 - 100) ∧
    |(restoreScrollPos 300 100 (1 / 4) : ℚ) / max 0 ((300 : ℚ) - 100) - 1 / 4|
      < 1 / max 0 ((300 : ℚ) - 100) :=
  ⟨scroll_anchor_preservation.1 50 100 300 (by norm_num),
   scroll_anchor_preservation.2.1 50 300 100 (by norm_num),
   scroll_anchor_preservation.2.2.2.1 300 100 (1 / 4) (by norm_num)⟩

/-- Claim C4 counterexample: an identifier of 32 characters whose
payload is not valid base64 produces the Failed to load PDF banner,
not the silent empty state. -/
theorem malformed_long_input_banner_counterexample :
    loadPrologue ("data:application/pdf;base64,!!!!".toList) = .decodeFailed ∧
    bannerOf (loadPrologue ("data:application/pdf;base64,!!!!".toList)) = some .loadFailed := by
  decide

theorem prologue_cond_true (input : List Char)
    (h : (trimChars input).isEmpty = true ∨ (trimChars input).length < 20) :
    ((trimChars input).isEmpty || decide ((trimChars input).length < 20)) = true := by
  rcases h with h | h
  · simp [h]
  · simp [h]

theorem prologue_cond_false (input : List Char)
    (h : ¬ ((trimChars input).isEmpty = true ∨ (trimChars input).length < 20)) :
    ((trimChars input).isEmpty || decide ((trimChars input).length < 20)) = false := by
  have h1 : (trimChars input).isEmpty = false := by
    cases he : (trimChars input).isEmpty
    · rfl
    · exact absurd (Or.inl he) h
  have h2 : ¬ ((trimChars input).length < 20) := fun hl => h (Or.inr hl)
  simp [h1, h2]

/-- Claim C4 (amended): the silent empty state (cleared document, no
banner) arises exactly from a trimmed identifier that is empty or
shorter than 20 characters; an identifier at or above 20 characters
whose payload decodes to no byte sequence (decoding throws) clears the
document but shows the visible Failed to load PDF banner. -/
theorem malformed_payload_amended (input : List Char) :
    ((trimChars input).isEmpty = true ∨ (trimChars input).length < 20 →
      loadPrologue input = .tooShort ∧ bannerOf (loadPrologue input) = none ∧
      (∀ (env : Env) (s : Ctrl), (startLoad env s input).1.doc = none ∧
        (startLoad env s input).1.pages = [] ∧
        (startLoad env s input).1.errorShown = false ∧
        (startLoad env s input).2 = none)) ∧
    (¬ ((trimChars input).isEmpty = true ∨ (trimChars input).length < 20) →
      dataUriToBytes (trimChars input) = none →
      loadPrologue input = .decodeFailed ∧
      bannerOf (loadPrologue input) = some .loadFailed ∧
      (∀ (env : Env) (s : Ctrl), (startLoad env s input).1.doc = none ∧
        (startLoad env s input).1.pages = [] ∧
        (startLoad env s input).1.errorShown = true ∧
        (startLoad env s input).2 = none)) := by
  constructor
  · intro hshort
    have hpro : loadPrologue input = .tooShort := by
      simp only [loadPrologue, prologue_cond_true input hshort, if_true]
    refine ⟨hpro, by rw [hpro]; rfl, ?_⟩
    intro env s
    simp [startLoad, hpro, clearDocumentCtrl]
  · intro hlong hdec
    have hpro : loadPrologue input = .decodeFailed := by
      simp only [loadPrologue, prologue_cond_false input hlong, Bool.false_eq_true, if_false, hdec]
    refine ⟨hpro, by rw [hpro]; rfl, ?_⟩
    intro env s
    simp [startLoad, hpro, clearDocumentCtrl]

/-- Witness for malformed_payload_amended: the 3-character identifier
abc is silent; the 32-character identifier with payload !!!! shows the
load-failure banner. -/
theorem malformed_payload_amended_w :
    loadPrologue ("abc".toList) = .tooShort ∧
    bannerOf (loadPrologue ("data:application/pdf;base64,!!!!".toList)) = some .loadFailed :=
  ⟨((malformed_payload_amended ("abc".toList)).1 (by decide)).1,
   ((malformed_payload_amended ("data:application/pdf;base64,!!!!".toList)).2
      (by decide) (by decide)).2.1⟩

/-- Claim C5: a trimmed identifier empty or shorter than 20 characters
yields the silent empty state, while an identifier at or above the
threshold whose decoded bytes do not start with %PDF yields the visible
Not a PDF banner carrying the observed 4-byte signature, and in that
case no asynchronous work starts, so the rendering capability is never
invoked. -/
theorem short_silent_signature_banner (input : List Char) (bs : List ℕ) :
    ((trimChars input).isEmpty = true ∨ (trimChars input).length < 20 →
      loadPrologue input = .tooShort ∧ bannerOf (loadPrologue input) = none ∧
      (∀ (env : Env) (s : Ctrl), (startLoad env s input).1.doc = none ∧
        (startLoad env s input).1.pages = [] ∧
        (startLoad env s input).1.errorShown = false ∧
        (startLoad env s input).2 = none)) ∧
    (¬ ((trimChars input).isEmpty = true ∨ (trimChars input).length < 20) →
      dataUriToBytes (trimChars input) = some bs →
      sigOf bs ≠ "%PDF" →
      loadPrologue input = .sigError (sigOf bs) ∧
      bannerOf (loadPrologue input) = some (.notAPdf (sigOf bs)) ∧
      (∀ (env : Env) (s : Ctrl), (startLoad env s input).1.errorShown = true ∧
        (startLoad env s input).2 = none)) := by
  constructor
  · intro hshort
    have hpro : loadPrologue input = .tooShort := by
      simp only [loadPrologue, prologue_cond_true input hshort, if_true]
    refine ⟨hpro, by rw [hpro]; rfl, ?_⟩
    intro env s
    simp [startLoad, hpro, clearDocumentCtrl]
  · intro hlong hdec hsig
    have hpro : loadPrologue input = .sigError (sigOf bs) := by
      simp only [loadPrologue, prologue_cond_false input hlong, Bool.false_eq_true, if_false,
        hdec, if_pos hsig]
    refine ⟨hpro, by rw [hpro]; rfl, ?_⟩
    intro env s
    simp [startLoad, hpro, clearDocumentCtrl]

/-- Witness for short_silent_signature_banner: a 1-character identifier
is silent; a 20-character identifier decoding to text starting hell
produces the signature banner. -/
theorem short_silent_signature_banner_w :
    loadPrologue ("x".toList) = .tooShort ∧
    bannerOf (loadPrologue ("aGVsbG8gd29ybGQgZm9v".toList))
      = some (.notAPdf (sigOf [104, 101, 108, 108, 111, 32, 119, 111, 114, 108, 100, 32, 102, 111, 111])) :=
  ⟨((short_silent_signature_banner ("x".toList) []).1 (by decide)).1,
   ((short_silent_signature_banner ("aGVsbG8gd29ybGQgZm9v".toList)
      [104, 101, 108, 108, 111, 32, 119, 111, 114, 108, 100, 32, 102, 111, 111]).2
      (by decide) (by decide) (by decide)).2.1⟩

/-- Claim C10: the signature extraction is total (always 4 characters,
missing byte positions read as 0), and because the too-short gate tests
the trimmed identifier length rather than the decoded buffer length, an
identifier of 20 or more characters that decodes to fewer than 4 bytes
produces the Not a PDF signature banner, not the silent empty state. -/
theorem signature_total_short_buffer (input : List Char) (bs : List ℕ) :
    (∀ b : List ℕ, (sigOf b).length = 4) ∧
    (¬ ((trimChars input).isEmpty = true ∨ (trimChars input).length < 20) →
      dataUriToBytes (trimChars input) = some bs →
      bs.length < 4 →
      loadPrologue input = .sigError (sigOf bs) ∧
      bannerOf (loadPrologue input) = some (.notAPdf (sigOf bs)) ∧
      loadPrologue input ≠ .tooShort) := by
  constructor
  · intro b
    rfl
  · intro hlong hdec hlen
    have h4 : bs.getD 3 0 = 0 := List.getD_eq_default _ _ (by omega)
    have hsig : sigOf bs ≠ "%PDF" := by
      unfold sigOf
      intro he
      have hd : ("%PDF" : String).data = ['%', 'P', 'D', 'F'] := rfl
      have hchars : [Char.ofNat (bs.getD 0 0), Char.ofNat (bs.getD 1 0),
          Char.ofNat (bs.getD 2 0), Char.ofNat (bs.getD 3 0)] = ['%', 'P', 'D', 'F'] := by
        have := congrArg String.data he
        rw [hd] at this
        exact this
      have hlast : Char.ofNat (bs.getD 3 0) = 'F' := by
        have := congrArg (fun l => l.getD 3 ' ') hchars
        simpa using this
      rw [h4] at hlast
      exact absurd hlast (by decide)
    have hpro : loadPrologue input = .sigError (sigOf bs) := by
      simp only [loadPrologue, prologue_cond_false input hlong, Bool.false_eq_true, if_false,
        hdec, if_pos hsig]
    refine ⟨hpro, by rw [hpro]; rfl, by rw [hpro]; intro hcontra; exact LoadOutcome.noConfusion hcontra⟩

/-- Witness for signature_total_short_buffer: a 32-character identifier
decoding to the single byte 0 produces the signature banner. -/
theorem signature_total_short_buffer_w :
    loadPrologue ("data:application/pdf;base64,AA==".toList) = .sigError (sigOf [0]) ∧
    (sigOf []).length = 4 :=
  ⟨((signature_total_short_buffer ("data:application/pdf;base64,AA==".toList) [0]).2
      (by decide) (by decide) (by decide)).1,
   (signature_total_short_buffer [] []).1 []⟩

/-- The scan loop of getCurrentPageIndex: i is the index of the next
offset, best the best index so far, bd its distance (none models the
initial Number.POSITIVE_INFINITY, beaten by any real distance); the
strict comparison keeps the first minimal candidate. -/
def scanBest (vm : ℚ) : List ℚ → ℕ → ℕ → Option ℚ → ℕ
  | [], _, best, _ => best
  | y :: rest, i, best, bd =>
    match bd with
    | none => scanBest vm rest (i + 1) i (some |y - vm|)
    | some b =>
      if |y - vm| < b then scanBest vm rest (i + 1) i (some |y - vm|)
      else scanBest vm rest (i + 1) best (some b)

/-- getCurrentPageIndex of the source: 0 with no wrappers; otherwise the
first offset closest to scrollTop + clientHeight * 0.35. -/
def getCurrentPageIndex (offsets : List ℚ) (scrollTop clientHeight : ℚ) : ℕ :=
  if offsets.length = 0 then 0
  else scanBest (scrollTop + clientHeight * (35 / 100)) offsets 0 0 none

/-- The navigation widgets updateNavUi drives: the page label text and
the disabled flags of the previous and next buttons. -/
structure NavUi where
  pageLabel : String
  prevDisabled : Bool
  nextDisabled : Bool
deriving Repr, DecidableEq

/-- updateNavUi of the source, as a function of the wrapper offsets and
the scroll geometry. -/
def updateNavUi (offsets : List ℚ) (scrollTop clientHeight : ℚ) : NavUi :=
  if offsets.length = 0 then ⟨"0 / 0", true, true⟩
  else
    let idx := getCurrentPageIndex offsets scrollTop clientHeight
    ⟨toString (idx + 1) ++ " / " ++ toString offsets.length,
      decide (idx ≤ 0), decide (idx ≥ offsets.length - 1)⟩

theorem scanBest_spec (vm : ℚ) (l : List ℚ) : ∀ (i best : ℕ) (b : ℚ),
    (scanBest vm l i best (some b) = best ∧ ∀ k, k < l.length → b ≤ |l.getD k 0 - vm|) ∨
    (∃ k, k < l.length ∧ scanBest vm l i best (some b) = i + k ∧ |l.getD k 0 - vm| < b ∧
      (∀ j, j < l.length → |l.getD k 0 - vm| ≤ |l.getD j 0 - vm|) ∧
      (∀ j, j < k → |l.getD k 0 - vm| < |l.getD j 0 - vm|)) := by
  induction l with
  | nil =>
    intro i best b
    left
    exact ⟨rfl, fun k hk => absurd hk (by simp)⟩
  | cons y rest ih =>
    intro i best b
    by_cases hd : |y - vm| < b
    · have hstep : scanBest vm (y :: rest) i best (some b)
          = scanBest vm rest (i + 1) i (some |y - vm|) := by
        simp [scanBest, hd]
      rcases ih (i + 1) i (|y - vm|) with ⟨heq, hall⟩ | ⟨k, hk, heq, hlt, hmin, hfirst⟩
      · right
        refine ⟨0, by simp, ?_, ?_, ?_, ?_⟩
        · rw [hstep, heq]; omega
        · simpa using hd
        · intro j hj
          cases j with
          | zero => simp
          | succ m =>
            have hm : m < rest.length := by simpa using hj
            simpa using hall m hm
        · intro j hj; omega
      · right
        refine ⟨k + 1, by simpa using hk, ?_, ?_, ?_, ?_⟩
        · rw [hstep, heq]; omega
        · have : |rest.getD k 0 - vm| < b := lt_trans hlt hd
          simpa using this
        · intro j hj
          cases j with
          | zero => simpa using le_of_lt hlt
          | succ m =>
            have hm : m < rest.length := by simpa using hj
            simpa using hmin m hm
        · intro j hj
          cases j with
          | zero => simpa using hlt
          | succ m =>
            have hm : m < k := by omega
            simpa using hfirst m hm
    · have hstep : scanBest vm (y :: rest) i best (some b)
          = scanBest vm rest (i + 1) best (some b) := by
        simp [scanBest, hd]
      rcases ih (i + 1) best b with ⟨heq, hall⟩ | ⟨k, hk, heq, hlt, hmin, hfirst⟩
      · left
        refine ⟨by rw [hstep, heq], ?_⟩
        intro k hk
        cases k with
        | zero => simpa using le_of_not_lt hd
        | succ m =>
          have hm : m < rest.length := by simpa using hk
          simpa using hall m hm
      · right
        refine ⟨k + 1, by simpa using hk, ?_, ?_, ?_, ?_⟩
        · rw [hstep, heq]; omega
        · simpa using hlt
        · intro j hj
          cases j with
          | zero =>
            have : |rest.getD k 0 - vm| ≤ |y - vm| :=
              le_of_lt (lt_of_lt_of_le hlt (le_of_not_lt hd))
            simpa using this
          | succ m =>
            have hm : m < rest.length := by simpa using hj
            simpa using hmin m hm
        · intro j hj
          cases j with
          | zero =>
            have : |rest.getD k 0 - vm| < |y - vm| :=
              lt_of_lt_of_le hlt (le_of_not_lt hd)
            simpa using this
          | succ m =>
            have hm : m < k := by omega
            simpa using hfirst m hm

theorem getCurrentPageIndex_firstMin (offsets : List ℚ) (st ch : ℚ) (hne : offsets ≠ []) :
    getCurrentPageIndex offsets st ch < offsets.length ∧
    (∀ j, j < offsets.length →
      |offsets.getD (getCurrentPageIndex offsets st ch) 0 - (st + ch * (35 / 100))|
        ≤ |offsets.getD j 0 - (st + ch * (35 / 100))|) ∧
    (∀ j, j < getCurrentPageIndex offsets st ch →
      |offsets.getD (getCurrentPageIndex offsets st ch) 0 - (st + ch * (35 / 100))|
        < |offsets.getD j 0 - (st + ch * (35 / 100))|) := by
  cases offsets with
  | nil => exact absurd rfl hne
  | cons y rest =>
    set vm := st + ch * (35 / 100) with hvm
    have hunfold : getCurrentPageIndex (y :: rest) st ch
        = scanBest vm rest 1 0 (some |y - vm|) := by
      simp [getCurrentPageIndex, scanBest]
    rcases scanBest_spec vm rest 1 0 (|y - vm|) with ⟨heq, hall⟩ | ⟨k, hk, heq, hlt, hmin, hfirst⟩
    · have hidx : getCurrentPageIndex (y :: rest) st ch = 0 := by rw [hunfold, heq]
      rw [hidx]
      refine ⟨by simp, ?_, ?_⟩
      · intro j hj
        cases j with
        | zero => simp
        | succ m =>
          have hm : m < rest.length := by simpa using hj
          have := hall m hm
          simpa using this
      · intro j hj; omega
    · have hidx : getCurrentPageIndex (y :: rest) st ch = k + 1 := by rw [hunfold, heq]; omega
      rw [hidx]
      refine ⟨by simpa using hk, ?_, ?_⟩
      · intro j hj
        cases j with
        | zero => simpa using le_of_lt hlt
        | succ m =>
          have hm : m < rest.length := by simpa using hj
          simpa using hmin m hm
      · intro j hj
        cases j with
        | zero => simpa using hlt
        | succ m =>
          have hm : m < k := by omega
          simpa using hfirst m hm

/-- Claim C9: with pages loaded the current page index is the first
index minimizing the distance from the wrapper offset to
scrollTop + 0.35 * clientHeight; the previous button is disabled exactly
at the first page and the next button exactly at the last; with no
pages both buttons are disabled and the label reads 0 / 0. -/
theorem current_page_and_nav (offsets : List ℚ) (st ch : ℚ) (hne : offsets ≠ []) :
    getCurrentPageIndex offsets st ch < offsets.length ∧
    (∀ j, j < offsets.length →
      |offsets.getD (getCurrentPageIndex offsets st ch) 0 - (st + ch * (35 / 100))|
        ≤ |offsets.getD j 0 - (st + ch * (35 / 100))|) ∧
    (∀ j, j < getCurrentPageIndex offsets st ch →
      |offsets.getD (getCurrentPageIndex offsets st ch) 0 - (st + ch * (35 / 100))|
        < |offsets.getD j 0 - (st + ch * (35 / 100))|) ∧
    ((updateNavUi offsets st ch).prevDisabled = true ↔ getCurrentPageIndex offsets st ch = 0) ∧
    ((updateNavUi offsets st ch).nextDisabled = true ↔
      getCurrentPageIndex offsets st ch = offsets.length - 1) ∧
    updateNavUi [] st ch = ⟨"0 / 0", true, true⟩ := by
  obtain ⟨hl, hmin, hfirst⟩ := getCurrentPageIndex_firstMin offsets st ch hne
  have hlen : ¬ (offsets.length = 0) := by
    cases offsets with
    | nil => exact absurd rfl hne
    | cons y rest => simp
  have hnav : updateNavUi offsets st ch
      = ⟨toString (getCurrentPageIndex offsets st ch + 1) ++ " / " ++ toString offsets.length,
         decide (getCurrentPageIndex offsets st ch ≤ 0),
         decide (getCurrentPageIndex offsets st ch ≥ offsets.length - 1)⟩ := by
    simp only [updateNavUi, hlen, if_false]
  refine ⟨hl, hmin, hfirst, ?_, ?_, rfl⟩
  · rw [hnav]
    simp only [decide_eq_true_eq]
    omega
  · rw [hnav]
    simp only [decide_eq_true_eq]
    omega

/-- Witness for current_page_and_nav at offsets 10 and 50 with scroll 0
and viewport height 100 (focal point 35, so page 2 is current). -/
theorem current_page_and_nav_w :
    getCurrentPageIndex [(10 : ℚ), 50] 0 100 < ([(10 : ℚ), 50] : List ℚ).length ∧
    updateNavUi ([] : List ℚ) 0 100 = ⟨"0 / 0", true, true⟩ :=
  ⟨(current_page_and_nav [(10 : ℚ), 50] 0 100 (by decide)).1,
   (current_page_and_nav [(10 : ℚ), 50] 0 100 (by decide)).2.2.2.2.2⟩

end PdfCanvasViewer
